import Mathlib

/-!
Shallow embedding of the IPFSEncryptedStorage Solidity contract and of the
companion TypeScript helpers in ipfsUtils, together with proofs of the
specified properties of the codec and of the access-controlled registry.

Bytes are modelled as natural numbers below 256, byte strings as lists of
naturals, addresses and uint256 values as natural numbers (with explicit
reductions modulo powers of two where the source truncates), and ciphertext
handles as opaque natural numbers.  Reverting operations return Except.
-/

/-- Error kind raised by the codec when the length require fails. -/
inductive CodecError where
  | InvalidLength
deriving DecidableEq

/-- Error kinds of the registry, one per require clause of the source. -/
inductive RegistryError where
  | NotFound
  | Forbidden
  | InvalidReader
deriving DecidableEq

namespace IPFSEncryptedStorage

/-- Embedding of ipfsHashToAddresses: packs the first 46 bytes of the input
into three uint160 values, byte 19 - i (resp. 39 - i, 45 - i) being shifted
to bit position i * 8, mirroring the three source loops. -/
def ipfsHashToAddresses (hashBytes : List Nat) : Except CodecError (Nat × Nat × Nat) :=
  if hashBytes.length < 46 then
    .error .InvalidLength
  else
    let addr1Value :=
      (List.range 20).foldl (fun v i => v ||| ((hashBytes.getD (19 - i) 0 <<< (i * 8)) % 2 ^ 160)) 0
    let addr2Value :=
      (List.range 20).foldl (fun v i => v ||| ((hashBytes.getD (39 - i) 0 <<< (i * 8)) % 2 ^ 160)) 0
    let addr3Value :=
      (List.range 6).foldl (fun v i => v ||| ((hashBytes.getD (45 - i) 0 <<< (i * 8)) % 2 ^ 160)) 0
    .ok (addr1Value, addr2Value, addr3Value)

/-- Embedding of addressesToIPFSHash: rebuilds the 46-byte sequence, writing
byte i * 8 .. i * 8 + 7 of each value to position 19 - i (resp. 39 - i,
45 - i), mirroring the three source loops (uint8 cast is reduction mod 256). -/
def addressesToIPFSHash (addr1 addr2 addr3 : Nat) : List Nat :=
  let result := List.replicate 46 0
  let result := (List.range 20).foldl (fun r i => r.set (19 - i) ((addr1 >>> (i * 8)) % 256)) result
  let result := (List.range 20).foldl (fun r i => r.set (39 - i) ((addr2 >>> (i * 8)) % 256)) result
  let result := (List.range 6).foldl (fun r i => r.set (45 - i) ((addr3 >>> (i * 8)) % 256)) result
  result

/-- Embedding of the EncryptedIPFSData struct; handles are opaque naturals. -/
structure EncryptedIPFSData where
  encryptedAddress1 : Nat
  encryptedAddress2 : Nat
  encryptedAddress3 : Nat
  owner : Nat
  exists' : Bool
deriving DecidableEq

/-- Contract storage: the id counter and the three mappings, each modelled as
a total function with the Solidity zero-value default. -/
@[ext]
structure ContractState where
  currentId : Nat
  encryptedStorage : Nat → EncryptedIPFSData
  authorizedUsers : Nat → Nat → Bool
  userStorageIds : Nat → List Nat

/-- Events emitted by the contract. -/
inductive Event where
  | IPFSDataStored (storageId owner : Nat)
  | AccessGranted (storageId user grantor : Nat)
  | AccessRevoked (storageId user revoker : Nat)
deriving DecidableEq

/-- Freshly deployed contract: zero counter, empty mappings. -/
def initialState : ContractState where
  currentId := 0
  encryptedStorage := fun _ => ⟨0, 0, 0, 0, false⟩
  authorizedUsers := fun _ _ => false
  userStorageIds := fun _ => []

/-- Embedding of storeEncryptedIPFSData; the FHE proof verification is an
external concern, so the three handles are taken as already-converted opaque
values.  Returns the new state, the returned storageId and emitted events. -/
def storeEncryptedIPFSData (s : ContractState) (sender h1 h2 h3 : Nat) :
    ContractState × Nat × List Event :=
  let storageId := s.currentId + 1
  ({ currentId := storageId
     encryptedStorage := fun i =>
       if i = storageId then ⟨h1, h2, h3, sender, true⟩ else s.encryptedStorage i
     authorizedUsers := s.authorizedUsers
     userStorageIds := fun u =>
       if u = sender then s.userStorageIds u ++ [storageId] else s.userStorageIds u },
   storageId, [.IPFSDataStored storageId sender])

/-- Embedding of grantAccess with its three require clauses in source order. -/
def grantAccess (s : ContractState) (sender storageId user : Nat) :
    Except RegistryError (ContractState × List Event) :=
  if ¬ (s.encryptedStorage storageId).exists' then .error .NotFound
  else if ¬ (s.encryptedStorage storageId).owner = sender then .error .Forbidden
  else if user = 0 then .error .InvalidReader
  else
    .ok ({ s with authorizedUsers := fun i u =>
             if i = storageId ∧ u = user then true else s.authorizedUsers i u },
         [.AccessGranted storageId user sender])

/-- Embedding of revokeAccess with its two require clauses in source order. -/
def revokeAccess (s : ContractState) (sender storageId user : Nat) :
    Except RegistryError (ContractState × List Event) :=
  if ¬ (s.encryptedStorage storageId).exists' then .error .NotFound
  else if ¬ (s.encryptedStorage storageId).owner = sender then .error .Forbidden
  else
    .ok ({ s with authorizedUsers := fun i u =>
             if i = storageId ∧ u = user then false else s.authorizedUsers i u },
         [.AccessRevoked storageId user sender])

/-- Embedding of getEncryptedAddresses (view): existence then access check. -/
def getEncryptedAddresses (s : ContractState) (sender storageId : Nat) :
    Except RegistryError (Nat × Nat × Nat) :=
  if ¬ (s.encryptedStorage storageId).exists' then .error .NotFound
  else if ¬ ((s.encryptedStorage storageId).owner = sender ∨
             s.authorizedUsers storageId sender = true) then .error .Forbidden
  else
    let data := s.encryptedStorage storageId
    .ok (data.encryptedAddress1, data.encryptedAddress2, data.encryptedAddress3)

/-- Embedding of hasAccess (view): total, never reverts. -/
def hasAccess (s : ContractState) (storageId user : Nat) : Bool :=
  if ¬ (s.encryptedStorage storageId).exists' then false
  else (s.encryptedStorage storageId).owner == user || s.authorizedUsers storageId user

/-- Embedding of getOwner (view). -/
def getOwner (s : ContractState) (storageId : Nat) : Except RegistryError Nat :=
  if ¬ (s.encryptedStorage storageId).exists' then .error .NotFound
  else .ok (s.encryptedStorage storageId).owner

/-- Embedding of getUserStorageIds (view). -/
def getUserStorageIds (s : ContractState) (user : Nat) : List Nat :=
  s.userStorageIds user

/-- Embedding of getCurrentId (view). -/
def getCurrentId (s : ContractState) : Nat :=
  s.currentId

/-- A mutating call to the contract, with its sender. -/
inductive Op where
  | store (sender h1 h2 h3 : Nat)
  | grant (sender storageId user : Nat)
  | revoke (sender storageId user : Nat)

/-- Execute one call; a reverted call leaves the state unchanged. -/
def exec (s : ContractState) : Op → ContractState
  | .store sender h1 h2 h3 => (storeEncryptedIPFSData s sender h1 h2 h3).1
  | .grant sender storageId user =>
      match grantAccess s sender storageId user with
      | .ok (t, _) => t
      | .error _ => s
  | .revoke sender storageId user =>
      match revokeAccess s sender storageId user with
      | .ok (t, _) => t
      | .error _ => s

/-- Execute a sequence of calls. -/
def run (s : ContractState) (ops : List Op) : ContractState :=
  ops.foldl exec s

/-- Number of store calls in a sequence. -/
def countStores (ops : List Op) : Nat :=
  (ops.filter fun op => match op with | .store _ _ _ _ => true | _ => false).length

/-- The storage ids returned by the store calls of a sequence, in call order. -/
def storeIds (s : ContractState) : List Op → List Nat
  | [] => []
  | .store sender h1 h2 h3 :: ops =>
      let r := storeEncryptedIPFSData s sender h1 h2 h3
      r.2.1 :: storeIds r.1 ops
  | op :: ops => storeIds (exec s op) ops

end IPFSEncryptedStorage

namespace ipfsUtils

/-- Embedding of the TypeScript ipfsHashToAddresses: strips the two-byte Qm
marker (bytes 81, 109) when present, checks the remaining length, and packs
exactly as the contract does. -/
def ipfsHashToAddresses (ipfsHash : List Nat) : Except CodecError (Nat × Nat × Nat) :=
  let cleanHash := if ipfsHash.take 2 = [81, 109] then ipfsHash.drop 2 else ipfsHash
  if cleanHash.length < 46 then
    .error .InvalidLength
  else
    let addr1Value :=
      (List.range 20).foldl (fun v i => v ||| ((cleanHash.getD (19 - i) 0 <<< (i * 8)) % 2 ^ 160)) 0
    let addr2Value :=
      (List.range 20).foldl (fun v i => v ||| ((cleanHash.getD (39 - i) 0 <<< (i * 8)) % 2 ^ 160)) 0
    let addr3Value :=
      (List.range 6).foldl (fun v i => v ||| ((cleanHash.getD (45 - i) 0 <<< (i * 8)) % 2 ^ 160)) 0
    .ok (addr1Value, addr2Value, addr3Value)

/-- One character of the base58 alphabet of the validation regex
(digits 1-9, A-H, J-N, P-Z, a-k, m-z). -/
def isBase58Char (c : Char) : Bool :=
  ('1' ≤ c && c ≤ '9') ||
  ('A' ≤ c && c ≤ 'H') ||
  ('J' ≤ c && c ≤ 'N') ||
  ('P' ≤ c && c ≤ 'Z') ||
  ('a' ≤ c && c ≤ 'k') ||
  ('m' ≤ c && c ≤ 'z')

/-- The nonempty-all-chars test performed by the anchored regex. -/
def base58Test (s : List Char) : Bool :=
  !s.isEmpty && s.all isBase58Char

/-- Embedding of isValidIPFSHash: the 48-character Qm-prefixed shape or the
bare 46-character shape, both over the base58 alphabet. -/
def isValidIPFSHash (hash : List Char) : Bool :=
  if hash.take 2 = ['Q', 'm'] ∧ hash.length = 48 then
    base58Test (hash.drop 2)
  else if hash.length = 46 then
    base58Test hash
  else
    false

end ipfsUtils

/-- Abstract form of one packing loop of the codec: byte last - i is shifted
to bit position i * 8 for i below n, combined with bitwise or, inside a
uint160 (reduction mod 2 ^ 160 at the shift, as in the source). -/
def packFold (g : Nat → Nat) (last : Nat) (n : Nat) : Nat :=
  (List.range n).foldl (fun v i => v ||| ((g (last - i) <<< (i * 8)) % 2 ^ 160)) 0

/-- Abstract form of one unpacking loop of the codec: position last - i of
the byte list receives value f i, for i below n. -/
def setFold (f : Nat → Nat) (last : Nat) (n : Nat) (r : List Nat) : List Nat :=
  (List.range n).foldl (fun r i => r.set (last - i) (f i)) r

lemma packFold_succ (g : Nat → Nat) (last n : Nat) :
    packFold g last (n + 1) = packFold g last n ||| ((g (last - n) <<< (n * 8)) % 2 ^ 160) := by
  unfold packFold
  rw [List.range_succ, List.foldl_append]
  rfl

lemma shift_mod_160 {b : Nat} (i : Nat) (hb : b < 256) (hi : i ≤ 19) :
    (b <<< (i * 8)) % 2 ^ 160 = b * 2 ^ (i * 8) := by
  rw [Nat.shiftLeft_eq]
  apply Nat.mod_eq_of_lt
  have h1 : b * 2 ^ (i * 8) ≤ 255 * 2 ^ 152 := by
    have hb2 : b ≤ 255 := by omega
    have hi2 : i * 8 ≤ 152 := by omega
    exact Nat.mul_le_mul hb2 (Nat.pow_le_pow_right (by norm_num) hi2)
  have h2 : (255 : Nat) * 2 ^ 152 < 2 ^ 160 := by norm_num
  omega

lemma packFold_lt (g : Nat → Nat) (last : Nat) (hg : ∀ i, g i < 256) :
    ∀ n, n ≤ 20 → packFold g last n < 2 ^ (n * 8) := by
  intro n
  induction n with
  | zero =>
    intro _
    norm_num [packFold]
  | succ n ih =>
    intro hn
    rw [packFold_succ, shift_mod_160 n (hg _) (by omega),
        Nat.mul_comm (g (last - n)) (2 ^ (n * 8)), Nat.lor_comm,
        ← Nat.mul_add_lt_is_or (ih (by omega))]
    calc 2 ^ (n * 8) * g (last - n) + packFold g last n
        < 2 ^ (n * 8) * g (last - n) + 2 ^ (n * 8) := by
          have := ih (by omega)
          omega
      _ = 2 ^ (n * 8) * (g (last - n) + 1) := by ring
      _ ≤ 2 ^ (n * 8) * 256 := Nat.mul_le_mul_left _ (hg _)
      _ = 2 ^ ((n + 1) * 8) := by
          rw [show (n + 1) * 8 = n * 8 + 8 by ring, Nat.pow_add]

lemma packFold_add (g : Nat → Nat) (last : Nat) (hg : ∀ i, g i < 256) (n : Nat) (hn : n < 20) :
    packFold g last (n + 1) = 2 ^ (n * 8) * g (last - n) + packFold g last n := by
  rw [packFold_succ, shift_mod_160 n (hg _) (by omega),
      Nat.mul_comm (g (last - n)) (2 ^ (n * 8)), Nat.lor_comm,
      ← Nat.mul_add_lt_is_or (packFold_lt g last hg n (by omega))]

lemma packFold_getByte (g : Nat → Nat) (last : Nat) (hg : ∀ i, g i < 256) :
    ∀ n, n ≤ 20 → ∀ j, j < n → packFold g last n / 2 ^ (j * 8) % 256 = g (last - j) := by
  intro n
  induction n with
  | zero =>
    intro _ j hj
    exact absurd hj (Nat.not_lt_zero j)
  | succ n ih =>
    intro hn j hj
    rw [packFold_add g last hg n (by omega)]
    rcases Nat.lt_or_ge j n with h | h
    · have hstep : 2 ^ (n * 8) * g (last - n) = 2 ^ ((n - j) * 8) * g (last - n) * 2 ^ (j * 8) := by
        rw [Nat.mul_right_comm, ← Nat.pow_add]
        congr 2
        omega
      rw [hstep, Nat.add_comm, Nat.add_mul_div_right _ _ (Nat.two_pow_pos (j * 8))]
      have hsplit : 2 ^ ((n - j) * 8) * g (last - n) = 256 * (2 ^ ((n - j) * 8 - 8) * g (last - n)) := by
        rw [← Nat.mul_assoc, show (256 : Nat) = 2 ^ 8 by norm_num, ← Nat.pow_add]
        congr 2
        omega
      rw [hsplit, Nat.add_mul_mod_self_left]
      exact ih (by omega) j h
    · have hjn : j = n := by omega
      subst hjn
      rw [Nat.mul_add_div (Nat.two_pow_pos (j * 8)),
          Nat.div_eq_of_lt (packFold_lt g last hg j (by omega)), Nat.add_zero,
          Nat.mod_eq_of_lt (hg _)]

lemma setFold_succ (f : Nat → Nat) (last n : Nat) (r : List Nat) :
    setFold f last (n + 1) r = (setFold f last n r).set (last - n) (f n) := by
  unfold setFold
  rw [List.range_succ, List.foldl_append]
  rfl

lemma setFold_length (f : Nat → Nat) (last : Nat) :
    ∀ n (r : List Nat), (setFold f last n r).length = r.length := by
  intro n
  induction n with
  | zero =>
    intro r
    rfl
  | succ n ih =>
    intro r
    rw [setFold_succ, List.length_set, ih]

lemma setFold_getElem?_outside (f : Nat → Nat) (last : Nat) :
    ∀ n (r : List Nat) (j : Nat), j + n ≤ last ∨ last < j →
      (setFold f last n r)[j]? = r[j]? := by
  intro n
  induction n with
  | zero =>
    intro r j _
    rfl
  | succ n ih =>
    intro r j hj
    rw [setFold_succ, List.getElem?_set_ne (by omega), ih r j (by omega)]

lemma setFold_getElem?_inside (f : Nat → Nat) (last : Nat) :
    ∀ n (r : List Nat) (j : Nat), n ≤ last + 1 → last < r.length → j ≤ last → last < j + n →
      (setFold f last n r)[j]? = some (f (last - j)) := by
  intro n
  induction n with
  | zero =>
    intro r j _ _ h1 h2
    exact absurd h2 (by omega)
  | succ n ih =>
    intro r j hnl hr h1 h2
    rw [setFold_succ]
    by_cases hje : last - n = j
    · have hn : n = last - j := by omega
      rw [hje, List.getElem?_set_self (by rw [setFold_length]; omega), hn]
    · rw [List.getElem?_set_ne hje]
      exact ih r j (by omega) hr h1 (by omega)

lemma ipfsHashToAddresses_eq (x : List Nat) (h : ¬ x.length < 46) :
    IPFSEncryptedStorage.ipfsHashToAddresses x =
      .ok (packFold (fun k => x.getD k 0) 19 20,
           packFold (fun k => x.getD k 0) 39 20,
           packFold (fun k => x.getD k 0) 45 6) := by
  unfold IPFSEncryptedStorage.ipfsHashToAddresses packFold
  simp only [if_neg h]

lemma addressesToIPFSHash_eq (a1 a2 a3 : Nat) :
    IPFSEncryptedStorage.addressesToIPFSHash a1 a2 a3 =
      setFold (fun i => (a3 >>> (i * 8)) % 256) 45 6
        (setFold (fun i => (a2 >>> (i * 8)) % 256) 39 20
          (setFold (fun i => (a1 >>> (i * 8)) % 256) 19 20 (List.replicate 46 0))) := rfl

lemma addressesToIPFSHash_length (a1 a2 a3 : Nat) :
    (IPFSEncryptedStorage.addressesToIPFSHash a1 a2 a3).length = 46 := by
  rw [addressesToIPFSHash_eq, setFold_length, setFold_length, setFold_length,
      List.length_replicate]

lemma addressesToIPFSHash_getElem?_w1 (a1 a2 a3 : Nat) (j : Nat) (hj : j ≤ 19) :
    (IPFSEncryptedStorage.addressesToIPFSHash a1 a2 a3)[j]? =
      some ((a1 >>> ((19 - j) * 8)) % 256) := by
  rw [addressesToIPFSHash_eq,
      setFold_getElem?_outside _ 45 6 _ j (by omega),
      setFold_getElem?_outside _ 39 20 _ j (by omega),
      setFold_getElem?_inside _ 19 20 (List.replicate 46 0) j (by omega)
        (by rw [List.length_replicate]; omega) hj (by omega)]

lemma addressesToIPFSHash_getElem?_w2 (a1 a2 a3 : Nat) (j : Nat) (hj1 : 20 ≤ j) (hj2 : j ≤ 39) :
    (IPFSEncryptedStorage.addressesToIPFSHash a1 a2 a3)[j]? =
      some ((a2 >>> ((39 - j) * 8)) % 256) := by
  rw [addressesToIPFSHash_eq,
      setFold_getElem?_outside _ 45 6 _ j (by omega),
      setFold_getElem?_inside _ 39 20 _ j (by omega)
        (by rw [setFold_length, List.length_replicate]; omega) hj2 (by omega)]

lemma addressesToIPFSHash_getElem?_w3 (a1 a2 a3 : Nat) (j : Nat) (hj1 : 40 ≤ j) (hj2 : j ≤ 45) :
    (IPFSEncryptedStorage.addressesToIPFSHash a1 a2 a3)[j]? =
      some ((a3 >>> ((45 - j) * 8)) % 256) := by
  rw [addressesToIPFSHash_eq,
      setFold_getElem?_inside _ 45 6 _ j (by omega)
        (by rw [setFold_length, setFold_length, List.length_replicate]; omega) hj2 (by omega)]

lemma getD_lt_256 (x : List Nat) (hb : ∀ b ∈ x, b < 256) : ∀ i, x.getD i 0 < 256 := by
  intro i
  rcases Nat.lt_or_ge i x.length with h | h
  · rw [List.getD_eq_getElem x 0 h]
    exact hb _ (List.getElem_mem h)
  · rw [List.getD_eq_default x 0 h]
    norm_num

/-- C1: for every 46-byte sequence x, decoding the Triple produced by
encoding x yields x again: addressesToIPFSHash applied to the three values
of ipfsHashToAddresses x returns x. -/
theorem codec_roundTrip (x : List Nat) (hlen : x.length = 46) (hb : ∀ b ∈ x, b < 256) :
    ∃ t : Nat × Nat × Nat,
      IPFSEncryptedStorage.ipfsHashToAddresses x = .ok t ∧
      IPFSEncryptedStorage.addressesToIPFSHash t.1 t.2.1 t.2.2 = x := by
  have hg : ∀ i, x.getD i 0 < 256 := getD_lt_256 x hb
  refine ⟨_, ipfsHashToAddresses_eq x (by omega), ?_⟩
  apply List.ext_getElem?
  intro j
  by_cases h46 : j < 46
  · have hxj : x[j]? = some (x.getD j 0) := by
      rw [List.getElem?_eq_getElem (by omega), List.getD_eq_getElem x 0 (by omega)]
    rcases Nat.lt_or_ge j 20 with h20 | h20
    · rw [addressesToIPFSHash_getElem?_w1 _ _ _ j (by omega), hxj,
          Nat.shiftRight_eq_div_pow]
      have hbyte := packFold_getByte (fun k => x.getD k 0) 19 hg 20 (by norm_num)
        (19 - j) (by omega)
      rw [(by omega : 19 - (19 - j) = j)] at hbyte
      rw [hbyte]
    · rcases Nat.lt_or_ge j 40 with h40 | h40
      · rw [addressesToIPFSHash_getElem?_w2 _ _ _ j (by omega) (by omega), hxj,
            Nat.shiftRight_eq_div_pow]
        have hbyte := packFold_getByte (fun k => x.getD k 0) 39 hg 20 (by norm_num)
          (39 - j) (by omega)
        rw [(by omega : 39 - (39 - j) = j)] at hbyte
        rw [hbyte]
      · rw [addressesToIPFSHash_getElem?_w3 _ _ _ j (by omega) (by omega), hxj,
            Nat.shiftRight_eq_div_pow]
        have hbyte := packFold_getByte (fun k => x.getD k 0) 45 hg 6 (by norm_num)
          (45 - j) (by omega)
        rw [(by omega : 45 - (45 - j) = j)] at hbyte
        rw [hbyte]
  · rw [List.getElem?_eq_none (by rw [addressesToIPFSHash_length]; omega),
        List.getElem?_eq_none (by omega)]

/-- Witness for C1 at the concrete 46-byte sequence of 97-valued bytes. -/
theorem codec_roundTrip_witness :
    (List.replicate 46 97).length = 46 ∧ (∀ b ∈ List.replicate 46 97, b < 256) ∧
    (∃ t : Nat × Nat × Nat,
      IPFSEncryptedStorage.ipfsHashToAddresses (List.replicate 46 97) = .ok t ∧
      IPFSEncryptedStorage.addressesToIPFSHash t.1 t.2.1 t.2.2 = List.replicate 46 97) :=
  ⟨by decide, by decide,
   codec_roundTrip (List.replicate 46 97) (by decide) (by decide)⟩

/-- C2 counterexample: on the 46-byte input 1, 2, ..., 46, the first packed
value has 20 (byte 19 of the first window), not 1 (byte 0), as its low-order
byte, so byte i of a window is not placed at bit position i * 8 from the
least significant end. -/
theorem packing_order_counterexample :
    IPFSEncryptedStorage.ipfsHashToAddresses (List.range' 1 46) =
      .ok (0x0102030405060708090A0B0C0D0E0F1011121314,
           0x15161718191A1B1C1D1E1F202122232425262728,
           0x292A2B2C2D2E) ∧
    (0x0102030405060708090A0B0C0D0E0F1011121314 : Nat) % 256 = 20 ∧
    ¬ ((0x0102030405060708090A0B0C0D0E0F1011121314 : Nat) % 256 =
        (List.range' 1 46).getD 0 0) := by
  refine ⟨rfl, by decide, by decide⟩

/-- C2 (amended): for every at-least-46-byte input, encode places byte i of
each w-byte window (w = 20, 20, 6) at bit position (w - 1 - i) * 8 counting
from the least significant end, so byte 0 of each window is the high-order
byte and byte 19 (resp. 5) is the low-order byte. -/
theorem packing_order_amended (x : List Nat) (h46 : 46 ≤ x.length) (hb : ∀ b ∈ x, b < 256) :
    ∃ a1 a2 a3 : Nat,
      IPFSEncryptedStorage.ipfsHashToAddresses x = .ok (a1, a2, a3) ∧
      (∀ i, i < 20 → (a1 >>> ((19 - i) * 8)) % 256 = x.getD i 0) ∧
      (∀ i, i < 20 → (a2 >>> ((19 - i) * 8)) % 256 = x.getD (20 + i) 0) ∧
      (∀ i, i < 6 → (a3 >>> ((5 - i) * 8)) % 256 = x.getD (40 + i) 0) := by
  have hg : ∀ i, x.getD i 0 < 256 := getD_lt_256 x hb
  refine ⟨_, _, _, ipfsHashToAddresses_eq x (by omega), ?_, ?_, ?_⟩
  · intro i hi
    rw [Nat.shiftRight_eq_div_pow]
    have hbyte := packFold_getByte (fun k => x.getD k 0) 19 hg 20 (by norm_num)
      (19 - i) (by omega)
    rw [(by omega : 19 - (19 - i) = i)] at hbyte
    exact hbyte
  · intro i hi
    rw [Nat.shiftRight_eq_div_pow]
    have hbyte := packFold_getByte (fun k => x.getD k 0) 39 hg 20 (by norm_num)
      (19 - i) (by omega)
    rw [(by omega : 39 - (19 - i) = 20 + i)] at hbyte
    exact hbyte
  · intro i hi
    rw [Nat.shiftRight_eq_div_pow]
    have hbyte := packFold_getByte (fun k => x.getD k 0) 45 hg 6 (by norm_num)
      (5 - i) (by omega)
    rw [(by omega : 45 - (5 - i) = 40 + i)] at hbyte
    exact hbyte

/-- Witness for the amended C2 at the concrete input 1, 2, ..., 46. -/
theorem packing_order_amended_witness :
    46 ≤ (List.range' 1 46).length ∧ (∀ b ∈ List.range' 1 46, b < 256) ∧
    (∃ a1 a2 a3 : Nat,
      IPFSEncryptedStorage.ipfsHashToAddresses (List.range' 1 46) = .ok (a1, a2, a3) ∧
      (∀ i, i < 20 → (a1 >>> ((19 - i) * 8)) % 256 = (List.range' 1 46).getD i 0) ∧
      (∀ i, i < 20 → (a2 >>> ((19 - i) * 8)) % 256 = (List.range' 1 46).getD (20 + i) 0) ∧
      (∀ i, i < 6 → (a3 >>> ((5 - i) * 8)) % 256 = (List.range' 1 46).getD (40 + i) 0)) :=
  ⟨by decide, by decide,
   packing_order_amended (List.range' 1 46) (by decide) (by decide)⟩

lemma packFold_congr (g g' : Nat → Nat) (last : Nat) (hgg : ∀ k, k ≤ last → g k = g' k) :
    ∀ n, packFold g last n = packFold g' last n := by
  intro n
  induction n with
  | zero => rfl
  | succ n ih =>
    rw [packFold_succ, packFold_succ, ih, hgg (last - n) (by omega)]

lemma ipfsHashToAddresses_error (x : List Nat) (h : x.length < 46) :
    IPFSEncryptedStorage.ipfsHashToAddresses x = .error .InvalidLength := by
  unfold IPFSEncryptedStorage.ipfsHashToAddresses
  simp only [if_pos h]

/-- C3: the TypeScript encoder fails (always with InvalidLength) exactly when
the input, after removal of the optional two-byte Qm marker, is shorter than
46 bytes; otherwise it is accepted and its value is the contract encoding of
the first 46 post-marker bytes, so trailing bytes are ignored. -/
theorem encode_length_spec (x : List Nat) :
    ((∃ e, ipfsUtils.ipfsHashToAddresses x = .error e) ↔
      (if x.take 2 = [81, 109] then x.drop 2 else x).length < 46) ∧
    (∀ e, ipfsUtils.ipfsHashToAddresses x = .error e → e = CodecError.InvalidLength) ∧
    (46 ≤ (if x.take 2 = [81, 109] then x.drop 2 else x).length →
      ipfsUtils.ipfsHashToAddresses x =
        IPFSEncryptedStorage.ipfsHashToAddresses
          ((if x.take 2 = [81, 109] then x.drop 2 else x).take 46)) := by
  set clean := if x.take 2 = [81, 109] then x.drop 2 else x with hclean
  have hux : ipfsUtils.ipfsHashToAddresses x =
      IPFSEncryptedStorage.ipfsHashToAddresses clean := rfl
  by_cases hlen : clean.length < 46
  · have herr := ipfsHashToAddresses_error clean hlen
    refine ⟨⟨fun _ => hlen, fun _ => ⟨.InvalidLength, hux.trans herr⟩⟩, ?_, ?_⟩
    · intro e he
      rw [hux, herr] at he
    · intro hge
      exact absurd hge (by omega)
  · have hok := ipfsHashToAddresses_eq clean hlen
    refine ⟨⟨?_, fun h => absurd h hlen⟩, ?_, ?_⟩
    · rintro ⟨e, he⟩
      rw [hux, hok] at he
      simp at he
    · intro e he
      rw [hux, hok] at he
    · intro _
      have hgd : ∀ k, k ≤ 45 → clean.getD k 0 = (clean.take 46).getD k 0 := by
        intro k hk
        rw [List.getD_eq_getElem?_getD, List.getD_eq_getElem?_getD,
            List.getElem?_take_of_lt (by omega)]
      rw [hux, hok,
          ipfsHashToAddresses_eq (clean.take 46) (by rw [List.length_take]; omega),
          packFold_congr (fun k => clean.getD k 0) (fun k => (clean.take 46).getD k 0) 19
            (fun k hk => hgd k (by omega)) 20,
          packFold_congr (fun k => clean.getD k 0) (fun k => (clean.take 46).getD k 0) 39
            (fun k hk => hgd k (by omega)) 20,
          packFold_congr (fun k => clean.getD k 0) (fun k => (clean.take 46).getD k 0) 45
            (fun k hk => hgd k (by omega)) 6]

/-- Witness for C3: a 50-byte input without marker is accepted and only its
first 46 bytes matter. -/
theorem encode_length_spec_witness :
    46 ≤ (if (List.replicate 50 55).take 2 = [81, 109]
          then (List.replicate 50 55).drop 2 else List.replicate 50 55).length ∧
    ipfsUtils.ipfsHashToAddresses (List.replicate 50 55) =
      IPFSEncryptedStorage.ipfsHashToAddresses
        ((if (List.replicate 50 55).take 2 = [81, 109]
          then (List.replicate 50 55).drop 2 else List.replicate 50 55).take 46) :=
  ⟨by decide, (encode_length_spec (List.replicate 50 55)).2.2 (by decide)⟩

/-- C4: isValidIPFSHash accepts exactly the 48-character strings that begin
with the marker Qm and continue with 46 base58 characters, and the
46-character strings made only of base58 characters; everything else is
rejected.  The alphabet itself has exactly 58 symbols, all at most the
character z. -/
theorem isValidIPFSHash_spec (h : List Char) :
    (ipfsUtils.isValidIPFSHash h = true ↔
      ((h.length = 48 ∧ h.take 2 = ['Q', 'm'] ∧
          ∀ c ∈ h.drop 2, ipfsUtils.isBase58Char c = true) ∨
       (h.length = 46 ∧ ∀ c ∈ h, ipfsUtils.isBase58Char c = true))) ∧
    ((List.range 123).filter (fun n => ipfsUtils.isBase58Char (Char.ofNat n))).length = 58 ∧
    (∀ c : Char, ipfsUtils.isBase58Char c = true → c ≤ 'z') := by
  refine ⟨?_, by decide, ?_⟩
  · unfold ipfsUtils.isValidIPFSHash ipfsUtils.base58Test
    by_cases h1 : h.take 2 = ['Q', 'm'] ∧ h.length = 48
    · rw [if_pos h1, Bool.and_eq_true, Bool.not_eq_true', List.isEmpty_eq_false,
          List.all_eq_true]
      constructor
      · rintro ⟨-, hall⟩
        exact Or.inl ⟨h1.2, h1.1, hall⟩
      · rintro (⟨hl, ht, hall⟩ | ⟨hl, hall⟩)
        · refine ⟨?_, hall⟩
          have hd : (h.drop 2).length = 46 := by rw [List.length_drop, h1.2]
          intro hnil
          rw [hnil] at hd
          simp at hd
        · exact absurd (h1.2.symm.trans hl) (by decide)
    · rw [if_neg h1]
      by_cases h2 : h.length = 46
      · rw [if_pos h2, Bool.and_eq_true, Bool.not_eq_true', List.isEmpty_eq_false,
            List.all_eq_true]
        constructor
        · rintro ⟨-, hall⟩
          exact Or.inr ⟨h2, hall⟩
        · rintro (⟨hl, ht, hall⟩ | ⟨hl, hall⟩)
          · exact absurd ⟨ht, hl⟩ h1
          · refine ⟨?_, hall⟩
            intro hnil
            rw [hnil] at h2
            simp at h2
      · rw [if_neg h2]
        simp only [Bool.false_eq_true, false_iff]
        rintro (⟨hl, ht, hall⟩ | ⟨hl, hall⟩)
        · exact h1 ⟨ht, hl⟩
        · exact h2 hl
  · intro c hc
    simp only [ipfsUtils.isBase58Char, Bool.or_eq_true, Bool.and_eq_true,
      decide_eq_true_eq] at hc
    rcases hc with ((((⟨-, hu⟩ | ⟨-, hu⟩) | ⟨-, hu⟩) | ⟨-, hu⟩) | ⟨-, hu⟩) | ⟨-, hu⟩
    · exact le_trans hu (by decide)
    · exact le_trans hu (by decide)
    · exact le_trans hu (by decide)
    · exact le_trans hu (by decide)
    · exact le_trans hu (by decide)
    · exact hu

/-- Witness for C4: the example hash with marker is accepted. -/
theorem isValidIPFSHash_spec_witness :
    ipfsUtils.isValidIPFSHash "QmYwAPJzv5CZsnA625s3Xf2nemtYgPpHdWEz79ojWnPbdG".toList = true :=
  (isValidIPFSHash_spec _).1.mpr (Or.inr ⟨by decide, by decide⟩)

open IPFSEncryptedStorage

lemma exec_store_currentId (s : ContractState) (a h1 h2 h3 : Nat) :
    (exec s (Op.store a h1 h2 h3)).currentId = s.currentId + 1 := rfl

lemma exec_grant_preserves (s : ContractState) (a b c : Nat) :
    (exec s (Op.grant a b c)).currentId = s.currentId ∧
    (exec s (Op.grant a b c)).encryptedStorage = s.encryptedStorage ∧
    (exec s (Op.grant a b c)).userStorageIds = s.userStorageIds := by
  simp only [exec]
  unfold grantAccess
  by_cases hx : ¬ (s.encryptedStorage b).exists'
  · rw [if_pos hx]
    exact ⟨rfl, rfl, rfl⟩
  · rw [if_neg hx]
    by_cases ho : ¬ (s.encryptedStorage b).owner = a
    · rw [if_pos ho]
      exact ⟨rfl, rfl, rfl⟩
    · rw [if_neg ho]
      by_cases hu : c = 0
      · rw [if_pos hu]
        exact ⟨rfl, rfl, rfl⟩
      · rw [if_neg hu]
        exact ⟨rfl, rfl, rfl⟩

lemma exec_revoke_preserves (s : ContractState) (a b c : Nat) :
    (exec s (Op.revoke a b c)).currentId = s.currentId ∧
    (exec s (Op.revoke a b c)).encryptedStorage = s.encryptedStorage ∧
    (exec s (Op.revoke a b c)).userStorageIds = s.userStorageIds := by
  simp only [exec]
  unfold revokeAccess
  by_cases hx : ¬ (s.encryptedStorage b).exists'
  · rw [if_pos hx]
    exact ⟨rfl, rfl, rfl⟩
  · rw [if_neg hx]
    by_cases ho : ¬ (s.encryptedStorage b).owner = a
    · rw [if_pos ho]
      exact ⟨rfl, rfl, rfl⟩
    · rw [if_neg ho]
      exact ⟨rfl, rfl, rfl⟩

lemma countStores_cons_store (a h1 h2 h3 : Nat) (ops : List Op) :
    countStores (Op.store a h1 h2 h3 :: ops) = countStores ops + 1 := by
  simp [countStores]

lemma countStores_cons_grant (a b c : Nat) (ops : List Op) :
    countStores (Op.grant a b c :: ops) = countStores ops := by
  simp [countStores]

lemma countStores_cons_revoke (a b c : Nat) (ops : List Op) :
    countStores (Op.revoke a b c :: ops) = countStores ops := by
  simp [countStores]

lemma run_cons (s : ContractState) (op : Op) (ops : List Op) :
    run s (op :: ops) = run (exec s op) ops := rfl

lemma run_currentId : ∀ (ops : List Op) (s : ContractState),
    (run s ops).currentId = s.currentId + countStores ops := by
  intro ops
  induction ops with
  | nil =>
    intro s
    simp [run, countStores]
  | cons op ops ih =>
    intro s
    rw [run_cons, ih]
    cases op with
    | store a h1 h2 h3 =>
      rw [exec_store_currentId, countStores_cons_store]
      omega
    | grant a b c =>
      rw [(exec_grant_preserves s a b c).1, countStores_cons_grant]
    | revoke a b c =>
      rw [(exec_revoke_preserves s a b c).1, countStores_cons_revoke]

lemma run_inv : ∀ (ops : List Op) (s : ContractState),
    (∀ id, ((s.encryptedStorage id).exists' = true ↔ 1 ≤ id ∧ id ≤ s.currentId)) →
    ∀ id, (((run s ops).encryptedStorage id).exists' = true ↔
      1 ≤ id ∧ id ≤ (run s ops).currentId) := by
  intro ops
  induction ops with
  | nil =>
    intro s hs
    exact hs
  | cons op ops ih =>
    intro s hs
    rw [run_cons]
    apply ih
    cases op with
    | store a h1 h2 h3 =>
      intro id
      show ((storeEncryptedIPFSData s a h1 h2 h3).1.encryptedStorage id).exists' = true ↔
        1 ≤ id ∧ id ≤ (storeEncryptedIPFSData s a h1 h2 h3).1.currentId
      by_cases hid : id = s.currentId + 1
      · simp [storeEncryptedIPFSData, hid]
      · simp only [storeEncryptedIPFSData, if_neg hid]
        rw [hs id]
        omega
    | grant a b c =>
      intro id
      rw [(exec_grant_preserves s a b c).2.1, (exec_grant_preserves s a b c).1]
      exact hs id
    | revoke a b c =>
      intro id
      rw [(exec_revoke_preserves s a b c).2.1, (exec_revoke_preserves s a b c).1]
      exact hs id

lemma storeIds_eq : ∀ (ops : List Op) (s : ContractState),
    storeIds s ops = List.range' (s.currentId + 1) (countStores ops) := by
  intro ops
  induction ops with
  | nil =>
    intro s
    rfl
  | cons op ops ih =>
    intro s
    cases op with
    | store a h1 h2 h3 =>
      show (storeEncryptedIPFSData s a h1 h2 h3).2.1 ::
          storeIds (storeEncryptedIPFSData s a h1 h2 h3).1 ops = _
      rw [ih, countStores_cons_store, List.range'_succ]
      rfl
    | grant a b c =>
      show storeIds (exec s (Op.grant a b c)) ops = _
      rw [ih, (exec_grant_preserves s a b c).1, countStores_cons_grant]
    | revoke a b c =>
      show storeIds (exec s (Op.revoke a b c)) ops = _
      rw [ih, (exec_revoke_preserves s a b c).1, countStores_cons_revoke]

/-- C5: starting from the empty registry, any call sequence containing n
store calls leaves the counter at n, the store calls return exactly the ids
1, ..., n in call order with no reuse, and an entry exists for id exactly
when 1 <= id <= n, so nextId = count of existing entries + 1 at all times. -/
theorem register_ids_spec (ops : List Op) :
    getCurrentId (run initialState ops) = countStores ops ∧
    storeIds initialState ops = List.range' 1 (countStores ops) ∧
    (storeIds initialState ops).Nodup ∧
    (∀ id, (((run initialState ops).encryptedStorage id).exists' = true ↔
      1 ≤ id ∧ id ≤ countStores ops)) := by
  have hinit : ∀ id, ((initialState.encryptedStorage id).exists' = true ↔
      1 ≤ id ∧ id ≤ initialState.currentId) := by
    intro id
    simp [initialState]
    omega
  refine ⟨?_, ?_, ?_, ?_⟩
  · show (run initialState ops).currentId = countStores ops
    rw [run_currentId]
    show initialState.currentId + countStores ops = countStores ops
    simp [initialState]
  · have h := storeIds_eq ops initialState
    simpa [initialState] using h
  · have h := storeIds_eq ops initialState
    rw [h]
    exact List.nodup_range' _ _
  · intro id
    have h := run_inv ops initialState hinit id
    rw [run_currentId] at h
    simpa [initialState] using h

/-- Witness for C5 on a concrete sequence of two stores and one grant. -/
theorem register_ids_spec_witness :
    getCurrentId (run initialState
      [Op.store 5 1 2 3, Op.grant 5 1 7, Op.store 8 4 5 6]) = 2 ∧
    storeIds initialState [Op.store 5 1 2 3, Op.grant 5 1 7, Op.store 8 4 5 6] = [1, 2] :=
  ⟨((register_ids_spec [Op.store 5 1 2 3, Op.grant 5 1 7, Op.store 8 4 5 6]).1).trans
      (by decide),
   ((register_ids_spec [Op.store 5 1 2 3, Op.grant 5 1 7, Op.store 8 4 5 6]).2.1).trans
      (by decide)⟩

lemma grantAccess_notFound (s : ContractState) (sender storageId user : Nat)
    (hx : (s.encryptedStorage storageId).exists' = false) :
    grantAccess s sender storageId user = .error .NotFound := by
  unfold grantAccess
  rw [if_pos (by simp [hx])]

lemma grantAccess_forbidden (s : ContractState) (sender storageId user : Nat)
    (hx : (s.encryptedStorage storageId).exists' = true)
    (ho : (s.encryptedStorage storageId).owner ≠ sender) :
    grantAccess s sender storageId user = .error .Forbidden := by
  unfold grantAccess
  rw [if_neg (by simp [hx]), if_pos ho]

lemma grantAccess_invalidReader (s : ContractState) (sender storageId : Nat)
    (hx : (s.encryptedStorage storageId).exists' = true)
    (ho : (s.encryptedStorage storageId).owner = sender) :
    grantAccess s sender storageId 0 = .error .InvalidReader := by
  unfold grantAccess
  rw [if_neg (by simp [hx]), if_neg (by simp [ho]), if_pos rfl]

lemma grantAccess_ok (s : ContractState) (sender storageId user : Nat)
    (hx : (s.encryptedStorage storageId).exists' = true)
    (ho : (s.encryptedStorage storageId).owner = sender) (hu : user ≠ 0) :
    grantAccess s sender storageId user =
      .ok ({ s with authorizedUsers := fun i u =>
               if i = storageId ∧ u = user then true else s.authorizedUsers i u },
           [Event.AccessGranted storageId user sender]) := by
  unfold grantAccess
  rw [if_neg (by simp [hx]), if_neg (by simp [ho]), if_neg hu]

lemma revokeAccess_notFound (s : ContractState) (sender storageId user : Nat)
    (hx : (s.encryptedStorage storageId).exists' = false) :
    revokeAccess s sender storageId user = .error .NotFound := by
  unfold revokeAccess
  rw [if_pos (by simp [hx])]

lemma revokeAccess_forbidden (s : ContractState) (sender storageId user : Nat)
    (hx : (s.encryptedStorage storageId).exists' = true)
    (ho : (s.encryptedStorage storageId).owner ≠ sender) :
    revokeAccess s sender storageId user = .error .Forbidden := by
  unfold revokeAccess
  rw [if_neg (by simp [hx]), if_pos ho]

lemma revokeAccess_ok (s : ContractState) (sender storageId user : Nat)
    (hx : (s.encryptedStorage storageId).exists' = true)
    (ho : (s.encryptedStorage storageId).owner = sender) :
    revokeAccess s sender storageId user =
      .ok ({ s with authorizedUsers := fun i u =>
               if i = storageId ∧ u = user then false else s.authorizedUsers i u },
           [Event.AccessRevoked storageId user sender]) := by
  unfold revokeAccess
  rw [if_neg (by simp [hx]), if_neg (by simp [ho])]

lemma hasAccess_not_exists (s : ContractState) (storageId user : Nat)
    (hx : (s.encryptedStorage storageId).exists' = false) :
    hasAccess s storageId user = false := by
  unfold hasAccess
  rw [if_pos (by simp [hx])]

lemma hasAccess_exists (s : ContractState) (storageId user : Nat)
    (hx : (s.encryptedStorage storageId).exists' = true) :
    hasAccess s storageId user =
      ((s.encryptedStorage storageId).owner == user || s.authorizedUsers storageId user) := by
  unfold hasAccess
  rw [if_neg (by simp [hx])]

lemma getEncryptedAddresses_ok (s : ContractState) (sender storageId : Nat)
    (hx : (s.encryptedStorage storageId).exists' = true)
    (hacc : (s.encryptedStorage storageId).owner = sender ∨
      s.authorizedUsers storageId sender = true) :
    getEncryptedAddresses s sender storageId =
      .ok ((s.encryptedStorage storageId).encryptedAddress1,
           (s.encryptedStorage storageId).encryptedAddress2,
           (s.encryptedStorage storageId).encryptedAddress3) := by
  unfold getEncryptedAddresses
  rw [if_neg (by simp [hx]), if_neg (not_not_intro hacc)]

lemma getEncryptedAddresses_forbidden (s : ContractState) (sender storageId : Nat)
    (hx : (s.encryptedStorage storageId).exists' = true)
    (hacc : ¬ ((s.encryptedStorage storageId).owner = sender ∨
      s.authorizedUsers storageId sender = true)) :
    getEncryptedAddresses s sender storageId = .error .Forbidden := by
  unfold getEncryptedAddresses
  rw [if_neg (by simp [hx]), if_pos hacc]

lemma grant_update_idem (s : ContractState) (storageId user : Nat) :
    (fun i u => if i = storageId ∧ u = user then true
       else (if i = storageId ∧ u = user then true else s.authorizedUsers i u)) =
    (fun i u => if i = storageId ∧ u = user then true else s.authorizedUsers i u) := by
  funext i u
  by_cases hiu : i = storageId ∧ u = user
  · rw [if_pos hiu, if_pos hiu]
  · rw [if_neg hiu]

/-- C6: grantAccess rejects missing entries with NotFound, callers other
than the owner with Forbidden and the zero reader with InvalidReader, and
otherwise succeeds; repeating a successful grant succeeds with the very same
state and event, a no-op. -/
theorem grantAccess_spec (s : ContractState) (sender storageId user : Nat) :
    ((s.encryptedStorage storageId).exists' = false →
      grantAccess s sender storageId user = .error .NotFound) ∧
    ((s.encryptedStorage storageId).exists' = true →
      (s.encryptedStorage storageId).owner ≠ sender →
      grantAccess s sender storageId user = .error .Forbidden) ∧
    ((s.encryptedStorage storageId).exists' = true →
      (s.encryptedStorage storageId).owner = sender → user = 0 →
      grantAccess s sender storageId user = .error .InvalidReader) ∧
    ((s.encryptedStorage storageId).exists' = true →
      (s.encryptedStorage storageId).owner = sender → user ≠ 0 →
      ∃ t evs, grantAccess s sender storageId user = .ok (t, evs) ∧
        grantAccess t sender storageId user = .ok (t, evs)) := by
  refine ⟨grantAccess_notFound s sender storageId user,
          fun hx ho => grantAccess_forbidden s sender storageId user hx ho,
          fun hx ho hu => hu ▸ grantAccess_invalidReader s sender storageId hx ho,
          fun hx ho hu => ?_⟩
  refine ⟨_, _, grantAccess_ok s sender storageId user hx ho hu, ?_⟩
  have h2 := grantAccess_ok
    ({ s with authorizedUsers := fun i u =>
         if i = storageId ∧ u = user then true else s.authorizedUsers i u })
    sender storageId user hx ho hu
  rw [h2]
  exact congrArg Except.ok (Prod.ext
    (ContractState.ext rfl rfl (grant_update_idem s storageId user) rfl) rfl)

/-- Witness for C6: on a one-entry registry, granting to the zero reader
fails with InvalidReader and granting twice to reader 7 is a no-op success. -/
theorem grantAccess_spec_witness :
    (((storeEncryptedIPFSData initialState 5 1 2 3).1.encryptedStorage 1).exists' = true) ∧
    grantAccess (storeEncryptedIPFSData initialState 5 1 2 3).1 5 1 0 =
      .error .InvalidReader ∧
    (∃ t evs, grantAccess (storeEncryptedIPFSData initialState 5 1 2 3).1 5 1 7 =
        .ok (t, evs) ∧ grantAccess t 5 1 7 = .ok (t, evs)) :=
  ⟨rfl,
   (grantAccess_spec (storeEncryptedIPFSData initialState 5 1 2 3).1 5 1 0).2.2.1
     rfl rfl rfl,
   (grantAccess_spec (storeEncryptedIPFSData initialState 5 1 2 3).1 5 1 7).2.2.2
     rfl rfl (by decide)⟩

/-- C7: register an entry as owner, grant reader r distinct from the owner:
hasAccess becomes true and getEncryptedAddresses succeeds for r; after the
subsequent revoke, hasAccess is false and getEncryptedAddresses fails with
Forbidden for r. -/
theorem grant_revoke_roundTrip (s : ContractState) (owner h1 h2 h3 r : Nat)
    (hro : r ≠ owner) (hr0 : r ≠ 0) :
    ∃ s2 evs,
      grantAccess (storeEncryptedIPFSData s owner h1 h2 h3).1 owner
          (storeEncryptedIPFSData s owner h1 h2 h3).2.1 r = .ok (s2, evs) ∧
      hasAccess s2 (storeEncryptedIPFSData s owner h1 h2 h3).2.1 r = true ∧
      (∃ v, getEncryptedAddresses s2 r (storeEncryptedIPFSData s owner h1 h2 h3).2.1 =
        .ok v) ∧
      (∃ s3 evs2,
        revokeAccess s2 owner (storeEncryptedIPFSData s owner h1 h2 h3).2.1 r =
          .ok (s3, evs2) ∧
        hasAccess s3 (storeEncryptedIPFSData s owner h1 h2 h3).2.1 r = false ∧
        getEncryptedAddresses s3 r (storeEncryptedIPFSData s owner h1 h2 h3).2.1 =
          .error .Forbidden) := by
  set S1 := (storeEncryptedIPFSData s owner h1 h2 h3).1 with hS1
  have hexS1 : S1.encryptedStorage (s.currentId + 1) = ⟨h1, h2, h3, owner, true⟩ := by
    show (if s.currentId + 1 = s.currentId + 1
          then (⟨h1, h2, h3, owner, true⟩ : EncryptedIPFSData)
          else s.encryptedStorage (s.currentId + 1)) = _
    rw [if_pos rfl]
  have hx1 : (S1.encryptedStorage (s.currentId + 1)).exists' = true := by rw [hexS1]
  have ho1 : (S1.encryptedStorage (s.currentId + 1)).owner = owner := by rw [hexS1]
  set S2 : ContractState :=
    { S1 with authorizedUsers := fun i u =>
        if i = s.currentId + 1 ∧ u = r then true else S1.authorizedUsers i u } with hS2v
  have hxS2 : (S2.encryptedStorage (s.currentId + 1)).exists' = true := hx1
  have hoS2 : (S2.encryptedStorage (s.currentId + 1)).owner = owner := ho1
  have hauth2 : S2.authorizedUsers (s.currentId + 1) r = true := by
    show (if s.currentId + 1 = s.currentId + 1 ∧ r = r then true
          else S1.authorizedUsers (s.currentId + 1) r) = true
    rw [if_pos ⟨rfl, rfl⟩]
  refine ⟨S2, [Event.AccessGranted (s.currentId + 1) r owner],
          grantAccess_ok S1 owner (s.currentId + 1) r hx1 ho1 hr0, ?_, ?_, ?_⟩
  · show hasAccess S2 (s.currentId + 1) r = true
    rw [hasAccess_exists S2 (s.currentId + 1) r hxS2, hauth2, Bool.or_true]
  · exact ⟨_, getEncryptedAddresses_ok S2 r (s.currentId + 1) hxS2 (Or.inr hauth2)⟩
  · set S3 : ContractState :=
      { S2 with authorizedUsers := fun i u =>
          if i = s.currentId + 1 ∧ u = r then false else S2.authorizedUsers i u } with hS3v
    have hxS3 : (S3.encryptedStorage (s.currentId + 1)).exists' = true := hx1
    have hoS3 : (S3.encryptedStorage (s.currentId + 1)).owner = owner := ho1
    have hauth3 : S3.authorizedUsers (s.currentId + 1) r = false := by
      show (if s.currentId + 1 = s.currentId + 1 ∧ r = r then false
            else S2.authorizedUsers (s.currentId + 1) r) = false
      rw [if_pos ⟨rfl, rfl⟩]
    refine ⟨S3, [Event.AccessRevoked (s.currentId + 1) r owner],
            revokeAccess_ok S2 owner (s.currentId + 1) r hxS2 hoS2, ?_, ?_⟩
    · show hasAccess S3 (s.currentId + 1) r = false
      rw [hasAccess_exists S3 (s.currentId + 1) r hxS3, hauth3, Bool.or_false, hoS3]
      exact beq_eq_false_iff_ne.mpr (Ne.symm hro)
    · apply getEncryptedAddresses_forbidden S3 r (s.currentId + 1) hxS3
      rintro (hco | hca)
      · rw [hoS3] at hco
        exact hro (hco.symm)
      · rw [hauth3] at hca
        exact Bool.false_ne_true hca

/-- Witness for C7 with a concrete registry, owner 5 and reader 7. -/
theorem grant_revoke_roundTrip_witness :
    (7 : Nat) ≠ 5 ∧ (7 : Nat) ≠ 0 ∧
    (∃ s2 evs,
      grantAccess (storeEncryptedIPFSData initialState 5 1 2 3).1 5
          (storeEncryptedIPFSData initialState 5 1 2 3).2.1 7 = .ok (s2, evs) ∧
      hasAccess s2 (storeEncryptedIPFSData initialState 5 1 2 3).2.1 7 = true ∧
      (∃ v, getEncryptedAddresses s2 7
        (storeEncryptedIPFSData initialState 5 1 2 3).2.1 = .ok v) ∧
      (∃ s3 evs2,
        revokeAccess s2 5 (storeEncryptedIPFSData initialState 5 1 2 3).2.1 7 =
          .ok (s3, evs2) ∧
        hasAccess s3 (storeEncryptedIPFSData initialState 5 1 2 3).2.1 7 = false ∧
        getEncryptedAddresses s3 7 (storeEncryptedIPFSData initialState 5 1 2 3).2.1 =
          .error .Forbidden)) :=
  ⟨by decide, by decide,
   grant_revoke_roundTrip initialState 5 1 2 3 7 (by decide) (by decide)⟩

/-- C8: hasAccess is a total function: it returns false for ids with no
entry, and for an existing entry it returns true exactly when the queried
identity is the entry owner or an authorized reader. -/
theorem hasAccess_total_spec (s : ContractState) (storageId user : Nat) :
    ((s.encryptedStorage storageId).exists' = false →
      hasAccess s storageId user = false) ∧
    ((s.encryptedStorage storageId).exists' = true →
      (hasAccess s storageId user = true ↔
        ((s.encryptedStorage storageId).owner = user ∨
          s.authorizedUsers storageId user = true))) := by
  refine ⟨hasAccess_not_exists s storageId user, fun hx => ?_⟩
  rw [hasAccess_exists s storageId user hx]
  simp [Bool.or_eq_true, beq_iff_eq]

/-- Witness for C8: nonexistent id 1 gives false, after registration the
owner 5 gets true. -/
theorem hasAccess_total_spec_witness :
    hasAccess initialState 1 5 = false ∧
    hasAccess (storeEncryptedIPFSData initialState 5 1 2 3).1 1 5 = true :=
  ⟨(hasAccess_total_spec initialState 1 5).1 rfl,
   ((hasAccess_total_spec (storeEncryptedIPFSData initialState 5 1 2 3).1 1 5).2 rfl).mpr
     (Or.inl rfl)⟩

/-- C9: whenever an entry exists, hasAccess is true for the entry owner,
unconditionally; any sequence of revokeAccess calls (including the owner
revoking the owner) leaves existence, ownership and the owner access
untouched. -/
theorem owner_always_hasAccess (s : ContractState) (storageId : Nat)
    (hx : (s.encryptedStorage storageId).exists' = true) :
    hasAccess s storageId ((s.encryptedStorage storageId).owner) = true ∧
    ∀ rs : List (Nat × Nat × Nat),
      (((rs.foldl (fun st p => exec st (Op.revoke p.1 p.2.1 p.2.2)) s).encryptedStorage
          storageId).exists' = true) ∧
      ((rs.foldl (fun st p => exec st (Op.revoke p.1 p.2.1 p.2.2)) s).encryptedStorage
          storageId).owner = (s.encryptedStorage storageId).owner ∧
      hasAccess (rs.foldl (fun st p => exec st (Op.revoke p.1 p.2.1 p.2.2)) s) storageId
        ((s.encryptedStorage storageId).owner) = true := by
  have hbase : ∀ (t : ContractState), (t.encryptedStorage storageId).exists' = true →
      hasAccess t storageId ((t.encryptedStorage storageId).owner) = true := by
    intro t ht
    rw [hasAccess_exists t storageId _ ht]
    simp
  have hpres : ∀ (rs : List (Nat × Nat × Nat)) (t : ContractState),
      (rs.foldl (fun st p => exec st (Op.revoke p.1 p.2.1 p.2.2)) t).encryptedStorage =
        t.encryptedStorage := by
    intro rs
    induction rs with
    | nil =>
      intro t
      rfl
    | cons p ps ih =>
      intro t
      rw [List.foldl_cons, ih, (exec_revoke_preserves t p.1 p.2.1 p.2.2).2.1]
  refine ⟨hbase s hx, fun rs => ⟨?_, ?_, ?_⟩⟩
  · rw [hpres rs s]
    exact hx
  · rw [hpres rs s]
  · have h := hbase (rs.foldl (fun st p => exec st (Op.revoke p.1 p.2.1 p.2.2)) s)
      (by rw [hpres rs s]; exact hx)
    rw [hpres rs s] at h
    exact h

/-- Witness for C9: entry 1 owned by 5; even after the owner revokes the
owner, hasAccess for the owner stays true. -/
theorem owner_always_hasAccess_witness :
    (((storeEncryptedIPFSData initialState 5 1 2 3).1.encryptedStorage 1).exists' = true) ∧
    hasAccess (storeEncryptedIPFSData initialState 5 1 2 3).1 1
      (((storeEncryptedIPFSData initialState 5 1 2 3).1.encryptedStorage 1).owner) = true ∧
    hasAccess ([((5 : Nat), (1 : Nat), (5 : Nat))].foldl
        (fun st p => exec st (Op.revoke p.1 p.2.1 p.2.2))
        (storeEncryptedIPFSData initialState 5 1 2 3).1) 1
      (((storeEncryptedIPFSData initialState 5 1 2 3).1.encryptedStorage 1).owner) = true :=
  ⟨rfl,
   (owner_always_hasAccess (storeEncryptedIPFSData initialState 5 1 2 3).1 1 rfl).1,
   ((owner_always_hasAccess (storeEncryptedIPFSData initialState 5 1 2 3).1 1 rfl).2
     [(5, 1, 5)]).2.2⟩

/-- C10: revokeAccess by the owner of an existing entry succeeds for every
reader identity, the zero identity included, setting the authorization flag
to false and emitting AccessRevoked; unlike grantAccess it has no
InvalidReader check, while grantAccess with reader 0 fails on the same
entry. -/
theorem revokeAccess_no_reader_check (s : ContractState) (sender storageId user : Nat)
    (hx : (s.encryptedStorage storageId).exists' = true)
    (ho : (s.encryptedStorage storageId).owner = sender) :
    (∃ t, revokeAccess s sender storageId user =
        .ok (t, [Event.AccessRevoked storageId user sender]) ∧
      t.authorizedUsers storageId user = false) ∧
    grantAccess s sender storageId 0 = .error .InvalidReader := by
  refine ⟨⟨_, revokeAccess_ok s sender storageId user hx ho, ?_⟩,
          grantAccess_invalidReader s sender storageId hx ho⟩
  show (if storageId = storageId ∧ user = user then false
        else s.authorizedUsers storageId user) = false
  rw [if_pos ⟨rfl, rfl⟩]

/-- Witness for C10 with the zero reader on a one-entry registry. -/
theorem revokeAccess_no_reader_check_witness :
    (((storeEncryptedIPFSData initialState 5 1 2 3).1.encryptedStorage 1).exists' = true) ∧
    (((storeEncryptedIPFSData initialState 5 1 2 3).1.encryptedStorage 1).owner = 5) ∧
    ((∃ t, revokeAccess (storeEncryptedIPFSData initialState 5 1 2 3).1 5 1 0 =
        .ok (t, [Event.AccessRevoked 1 0 5]) ∧ t.authorizedUsers 1 0 = false) ∧
      grantAccess (storeEncryptedIPFSData initialState 5 1 2 3).1 5 1 0 =
        .error .InvalidReader) :=
  ⟨rfl, rfl,
   revokeAccess_no_reader_check (storeEncryptedIPFSData initialState 5 1 2 3).1 5 1 0 rfl rfl⟩
